import Mathlib

/-! Command repository of the RTT task context, and property extension of the control kernel.

A shallow embedding of `CommandRepository` (`CommandRepository.hpp`) with the properties of its
registration and lookup operations, followed by one of `PropertyExtension` and
`PropertyComponentInterface` (`PropertyExtension.cxx`), whose member functions return, next
to their result, the calls they made on their collaborators.

An object behind a `DispatchInterface*` is a value that carries the address it was allocated
at. The allocator is a counter: a `clone()` or a produced handle takes the current value and
increments it, so two handles created by different allocations never share an address. Factory
Adapters are owned by their map entry and carry no address. Releasing an object with `delete`
has no counterpart here: an address is never handed out twice.
-/

set_option autoImplicit false

namespace RTT

/-! ## `std::map<std::string, V>` -/

/-- A `std::map<std::string, V>`, given as the list of its entries in iteration order. -/
abbrev StdMap (V : Type) := List (String × V)

namespace StdMap

/-- The value found by `m.find(k)`; `none` stands for `m.end()`. -/
def find {V : Type} : StdMap V → String → Option V
  | [], _ => none
  | (k', v) :: rest, k => if k' = k then some v else find rest k

/-- The number `m.count(k)` of entries with key `k`. -/
def count {V : Type} (m : StdMap V) (k : String) : Nat :=
  match find m k with
  | some _ => 1
  | none => 0

/-- The assignment `m[k] = v`: overwrite the entry with key `k`, or insert one at its place in the
key order. -/
def assign {V : Type} : StdMap V → String → V → StdMap V
  | [], k, v => [(k, v)]
  | (k', v') :: rest, k, v =>
    if k' = k then (k, v) :: rest
    else if k.toList < k'.toList then (k, v) :: (k', v') :: rest
    else (k', v') :: assign rest k v

/-- The map after `m.erase(k)`: the entry with key `k`, if there is one, is removed. -/
def erase {V : Type} : StdMap V → String → StdMap V
  | [], _ => []
  | (k', v) :: rest, k => if k' = k then rest else (k', v) :: erase rest k

/-- The map after `m.erase(m.begin())`. -/
def eraseBegin {V : Type} : StdMap V → StdMap V
  | [] => []
  | _ :: rest => rest

end StdMap

/-! ## Collaborators of the repository -/

/-- Modelled from the spec: the descriptor of an argument type of a Signature (§3), here the name
of the type. The class that records it is declared outside `CommandRepository.hpp`. -/
abbrev TypeDesc := String

/-- Modelled from the spec: a Signature (§3), the ordered list of the argument type descriptors
of an operation. In the source it is the template parameter `ComSig`. -/
abbrev Signature := List TypeDesc

/-- Modelled from the spec: an Argument Value (§2), the target of a
`DataSourceBase::shared_ptr`: a dynamically typed handle to one concrete argument. -/
structure DataSourceBase where
  typeName : TypeDesc
  value : Int
  deriving DecidableEq, Repr

/-- Modelled from the spec: the callable stored in a Command Binding. `fn f` is the function `f`
of a local command, called as it is. `ds wp f` is the `FunctorDS0`/`FunctorDS1` object built by
`CommandF(wp, f)`: it calls `f` on the object that the weak reference source `wp` designates
when the call is made (§4.4). Functions, weak reference sources and processors are
identified by a number. -/
inductive CommandF where
  | fn (f : Nat)
  | ds (wp : Nat) (f : Nat)
  deriving DecidableEq, Repr

/-- Modelled from the spec: a Command Binding (§3), the class `detail::DataSourceArgsCommand`
with the four constructor arguments the repository passes: action, completion predicate,
processor reference and inversion flag. -/
structure DataSourceArgsCommand where
  action : CommandF
  condition : CommandF
  processor : Nat
  inverted : Bool
  deriving DecidableEq, Repr

/-- Modelled from the spec: the execution state of a Dispatch Handle (§3). -/
inductive ExecState where
  | created
  | dispatched
  | pending
  | done
  | failed
  deriving DecidableEq, Repr

/-- Modelled from the spec: the dynamic type and contents of an object behind a
`DispatchInterface*`. `localCommand` is a `detail::LocalCommand<Sig>` with the values of
`getCommandFunction()`, `getConditionFunction()`, `getCommandProcessor()` and `isInverted()`;
`remoteCommand` is an implementation that is not in-process (a proxy); `dataSourceArgsCommand`
is a handle made by a Factory Adapter from a binding and an argument list. -/
inductive CommandImpl where
  | localCommand (sig : Signature) (commandFunction conditionFunction : Nat)
      (commandProcessor : Nat) (inverted : Bool)
  | remoteCommand (sig : Signature) (server : String)
  | dataSourceArgsCommand (binding : DataSourceArgsCommand) (args : List DataSourceBase)
  deriving DecidableEq, Repr

/-- Modelled from the spec: a Dispatch Handle (§3), an object behind a `DispatchInterface*`:
the address it was allocated at, its execution state and its implementation. -/
structure DispatchInterface where
  addr : Nat
  state : ExecState
  impl : CommandImpl
  deriving DecidableEq, Repr

/-- Modelled from the spec: `clone()` (§4.2) yields a fresh handle in state Created with the
same binding and argument values; `heap` is the address the allocator hands out. -/
def DispatchInterface.clone (d : DispatchInterface) (heap : Nat) : DispatchInterface :=
  { addr := heap, state := ExecState.created, impl := d.impl }

/-- Modelled from the spec: a Completion Condition (§2), the re-evaluable predicate "has this
dispatched operation finished" of one handle. It evaluates the completion predicate of the
implementation it was created from, with its arguments and inversion flag. -/
structure ConditionInterface where
  command : CommandImpl
  deriving DecidableEq, Repr

/-- Modelled from the spec: `createCondition()` of a handle (§4.1 getCondition: "extracts its
Completion Condition"). -/
def DispatchInterface.createCondition (d : DispatchInterface) : ConditionInterface :=
  { command := d.impl }

/-- Modelled from the spec: the command object handed to `addCommand` (template parameter
`CommandT`, a "ready-made" binding, §4.1): `getName()`, its `Signature` and the implementation
returned by `getCommandImpl()`. -/
structure CommandT where
  name : String
  signature : Signature
  impl : DispatchInterface
  deriving DecidableEq, Repr

/-- Modelled from the spec: the command description handed to `addCommandDS` (its template
parameter `CommandT`), with the values of `getName()`, `getCommandFunction()`,
`getConditionFunction()`, `getCommandProcessor()` and `isInverted()`. The first entry of the
signature is the object the functions are called on. -/
structure CommandDS where
  name : String
  signature : Signature
  commandFunction : Nat
  conditionFunction : Nat
  commandProcessor : Nat
  inverted : Bool
  deriving DecidableEq, Repr

/-- The values a `detail::LocalCommand<ComSig>*` gives access to. -/
structure LocalCommand where
  commandFunction : Nat
  conditionFunction : Nat
  commandProcessor : Nat
  inverted : Bool
  deriving DecidableEq, Repr

/-- The cast `dynamic_cast<detail::LocalCommand<ComSig>*>( impl )`: the local command when the
object is a `LocalCommand` of signature `sig`, `none` (the null pointer) otherwise. -/
def dynamicCastLocalCommand (sig : Signature) (d : DispatchInterface) : Option LocalCommand :=
  match d.impl with
  | CommandImpl.localCommand s f c p i =>
    if s = sig then
      some { commandFunction := f, conditionFunction := c, commandProcessor := p, inverted := i }
    else none
  | _ => none

/-! ## The inherited `OperationFactory<DispatchInterface*>` -/

/-- Modelled from the spec: a Factory Adapter (§3, §4.3), one of the classes
`detail::OperationFactoryPart0` to `OperationFactoryPart4`, declared in `OperationFactory.hpp`:
the arity of the class, the argument type descriptors recorded from the signature, the
prototype Command Binding, and the description and argument (name, description) pairs. -/
structure OperationFactoryPart where
  arity : Nat
  argTypes : List TypeDesc
  binding : DataSourceArgsCommand
  description : String
  argMeta : List (String × String)
  deriving DecidableEq, Repr

/-- Modelled from the spec: the result of producing a handle (§4.1 getCommand): the handle, or
one of the two null results `NotFound` and `InvalidArguments`. -/
inductive Produced where
  | handle (d : DispatchInterface)
  | notFound
  | invalidArguments
  deriving DecidableEq, Repr

/-- The `DispatchInterface*` a caller receives: both failure results are the null pointer. -/
def Produced.ptr : Produced → Option DispatchInterface
  | Produced.handle d => some d
  | Produced.notFound => none
  | Produced.invalidArguments => none

/-- Modelled from the spec: `produce(args)` of a Factory Adapter (§4.3). It checks that
`args.size()` equals the arity and that the dynamic type of each element matches the recorded
descriptor at its position; on a mismatch it returns `InvalidArguments` and constructs nothing,
otherwise it binds the arguments into a copy of the prototype binding and returns the new
handle, in state Created. The second component is the allocator after the call. -/
def OperationFactoryPart.produce (p : OperationFactoryPart) (heap : Nat)
    (args : List DataSourceBase) : Produced × Nat :=
  if args.length = p.arity ∧ args.map DataSourceBase.typeName = p.argTypes then
    (Produced.handle
      { addr := heap, state := ExecState.created,
        impl := CommandImpl.dataSourceArgsCommand p.binding args }, heap + 1)
  else (Produced.invalidArguments, heap)

namespace OperationFactory

/-- Modelled from the spec: `hasMember(name)` (§4.1), the existence check on the name to
Factory Adapter map. -/
def hasMember (mdata : StdMap OperationFactoryPart) (name : String) : Bool :=
  (StdMap.find mdata name).isSome

/-- Modelled from the spec: `add(name, part)`, which "inserts it keyed by name" (§4.1): after
the call the map holds `part` under `name`. -/
def add (mdata : StdMap OperationFactoryPart) (name : String) (part : OperationFactoryPart) :
    StdMap OperationFactoryPart :=
  StdMap.assign mdata name part

/-- Modelled from the spec: `produce(name, args)` (§4.1 getCommand): looks up the Factory
Adapter, `NotFound` if the name is absent, otherwise the result of the adapter. -/
def produce (mdata : StdMap OperationFactoryPart) (heap : Nat) (name : String)
    (args : List DataSourceBase) : Produced × Nat :=
  match StdMap.find mdata name with
  | none => (Produced.notFound, heap)
  | some part => part.produce heap args

/-- Modelled from the spec: `OperationFactory::clear()` (§4.1 clear: "releases every owned ...
Factory Adapter"): the map is empty afterwards. -/
def clear (_mdata : StdMap OperationFactoryPart) : StdMap OperationFactoryPart :=
  []

end OperationFactory

/-! ## `CommandRepository` -/

/-- The class `CommandRepository`: the map `simplecommands` of the natively added prototypes and
the name to Factory Adapter map inherited from `OperationFactory<DispatchInterface*>`. -/
structure CommandRepository where
  simplecommands : StdMap DispatchInterface
  mdata : StdMap OperationFactoryPart
  deriving DecidableEq, Repr

/-- The outcome of a member function that dereferences a pointer: the value returned, or the
fault of calling a member through the null pointer. -/
inductive Outcome (α : Type) where
  | returned (a : α)
  | nullDereference
  deriving DecidableEq, Repr

namespace CommandRepository

/-- The inherited `hasMember(name)`. -/
def hasMember (r : CommandRepository) (name : String) : Bool :=
  OperationFactory.hasMember r.mdata name

/-- The function `getCommand( name, args )`: `return this->produce(name, args);`. -/
def getCommand (r : CommandRepository) (heap : Nat) (name : String)
    (args : List DataSourceBase) : Produced × Nat :=
  OperationFactory.produce r.mdata heap name args

/-- The function `getCommand<Signature>( name )`, compiled without `ORO_REMOTING`: when
`simplecommands.count(name)` is not zero the result is `simplecommands[name]->clone()`,
otherwise the null pointer. Returns the pointer, the repository and the allocator. -/
def getCommandSig (r : CommandRepository) (heap : Nat) (name : String) :
    Option DispatchInterface × CommandRepository × Nat :=
  match StdMap.find r.simplecommands name with
  | some proto => (some (proto.clone heap), r, heap + 1)
  | none => (none, r, heap)

/-- The function `getCondition( name, args )`: `di = this->produce(name, args)`, then
`di->createCondition()` is called on that pointer with no test, `di` is deleted and the
condition returned. The result is a `ConditionInterface*`, `none` being the null pointer. -/
def getCondition (r : CommandRepository) (heap : Nat) (name : String)
    (args : List DataSourceBase) : Outcome (Option ConditionInterface) × Nat :=
  match OperationFactory.produce r.mdata heap name args with
  | (di, heap1) =>
    match di.ptr with
    | none => (Outcome.nullDereference, heap1)
    | some d => (Outcome.returned (some d.createCondition), heap1)

/-- The loop of `clear()`: `while ( !simplecommands.empty() )` delete the first prototype and
`erase( simplecommands.begin() )`. -/
def clearLoop : StdMap DispatchInterface → StdMap DispatchInterface
  | [] => []
  | first :: rest => clearLoop (StdMap.eraseBegin (first :: rest))

/-- The function `clear()`: the loop over `simplecommands`, then
`OperationFactory<DispatchInterface*>::clear()`. -/
def clear (r : CommandRepository) : CommandRepository :=
  { simplecommands := clearLoop r.simplecommands, mdata := OperationFactory.clear r.mdata }

/-- The function `addCommand( CommandT* com )`: refuse when `simplecommands.count(name)` is not
zero, otherwise store `com->getCommandImpl()->clone()` under the name. Returns the result, the
repository and the allocator after the call. -/
def addCommand (r : CommandRepository) (heap : Nat) (com : CommandT) :
    Bool × CommandRepository × Nat :=
  if StdMap.count r.simplecommands com.name ≠ 0 then (false, r, heap)
  else
    (true,
      { r with simplecommands := StdMap.assign r.simplecommands com.name (com.impl.clone heap) },
      heap + 1)

/-- The Factory Adapter built by the description-taking `addCommand` overloads:
`OperationFactoryPartN<DispatchInterface*, DataSourceArgsCommand<ComSig>>` over the binding
`DataSourceArgsCommand<ComSig>(lc->getCommandFunction(), lc->getConditionFunction(),
lc->getCommandProcessor(), lc->isInverted())`, where N is the number of argument pairs and the
argument types are the first N of `ComSig`. -/
def localPart (sig : Signature) (lc : LocalCommand) (description : String)
    (argMeta : List (String × String)) : OperationFactoryPart :=
  { arity := argMeta.length,
    argTypes := sig.take argMeta.length,
    binding :=
      { action := CommandF.fn lc.commandFunction, condition := CommandF.fn lc.conditionFunction,
        processor := lc.commandProcessor, inverted := lc.inverted },
    description := description,
    argMeta := argMeta }

/-- The description-taking overloads `addCommand( com, description, arg1, arg1_description,
... )`. The five overloads, for zero to four argument pairs, have one body up to the class
`OperationFactoryPartN` they create; `argMeta` is the list of the pairs passed. The command
must be a local command; it is first added with `addCommand( c )`, and then its Factory Adapter
is added under its name. -/
def addCommandN (r : CommandRepository) (heap : Nat) (com : CommandT) (description : String)
    (argMeta : List (String × String)) : Bool × CommandRepository × Nat :=
  match dynamicCastLocalCommand com.signature com.impl with
  | none => (false, r, heap)
  | some lc =>
    match addCommand r heap com with
    | (false, r1, heap1) => (false, r1, heap1)
    | (true, r1, heap1) =>
      (true,
        { r1 with
          mdata := OperationFactory.add r1.mdata com.name
            (localPart com.signature lc description argMeta) },
        heap1)

/-- The overload `addCommand( com, description )`. -/
def addCommand0 (r : CommandRepository) (heap : Nat) (com : CommandT) (description : String) :
    Bool × CommandRepository × Nat :=
  addCommandN r heap com description []

/-- The overload `addCommand( com, description, arg1, arg1_description )`. -/
def addCommand1 (r : CommandRepository) (heap : Nat) (com : CommandT) (description : String)
    (arg1 arg1_description : String) : Bool × CommandRepository × Nat :=
  addCommandN r heap com description [(arg1, arg1_description)]

/-- The overload of `addCommand` with two argument pairs. -/
def addCommand2 (r : CommandRepository) (heap : Nat) (com : CommandT) (description : String)
    (arg1 arg1_description arg2 arg2_description : String) : Bool × CommandRepository × Nat :=
  addCommandN r heap com description [(arg1, arg1_description), (arg2, arg2_description)]

/-- The overload of `addCommand` with three argument pairs. -/
def addCommand3 (r : CommandRepository) (heap : Nat) (com : CommandT) (description : String)
    (arg1 arg1_description arg2 arg2_description arg3 arg3_description : String) :
    Bool × CommandRepository × Nat :=
  addCommandN r heap com description
    [(arg1, arg1_description), (arg2, arg2_description), (arg3, arg3_description)]

/-- The overload of `addCommand` with four argument pairs. -/
def addCommand4 (r : CommandRepository) (heap : Nat) (com : CommandT) (description : String)
    (arg1 arg1_description arg2 arg2_description arg3 arg3_description
      arg4 arg4_description : String) : Bool × CommandRepository × Nat :=
  addCommandN r heap com description
    [(arg1, arg1_description), (arg2, arg2_description), (arg3, arg3_description),
      (arg4, arg4_description)]

/-- The binding built by `addCommandDS`: `DSComm( CommandF(wp, c.getCommandFunction()),
CommandF(wp, c.getConditionFunction()), c.getCommandProcessor(), c.isInverted() )`. -/
def dsBinding (wp : Nat) (c : CommandDS) : DataSourceArgsCommand :=
  { action := CommandF.ds wp c.commandFunction, condition := CommandF.ds wp c.conditionFunction,
    processor := c.commandProcessor, inverted := c.inverted }

/-- The function `addCommandDS( wp, c, description )`: refuse when `hasMember(name)`, otherwise
add an `OperationFactoryPart0` over the weak reference binding. -/
def addCommandDS0 (r : CommandRepository) (wp : Nat) (c : CommandDS) (description : String) :
    Bool × CommandRepository :=
  if r.hasMember c.name then (false, r)
  else
    (true,
      { r with
        mdata := OperationFactory.add r.mdata c.name
          { arity := 0, argTypes := [], binding := dsBinding wp c,
            description := description, argMeta := [] } })

/-- The function `addCommandDS( wp, c, description, arg1, arg1_description )`: refuse when
`hasMember(name)`, otherwise add an `OperationFactoryPart1` over the weak reference binding,
whose argument type is `DSComm::traits::arg2_type`, the second type of the signature. -/
def addCommandDS1 (r : CommandRepository) (wp : Nat) (c : CommandDS) (description : String)
    (arg1 arg1_description : String) : Bool × CommandRepository :=
  if r.hasMember c.name then (false, r)
  else
    (true,
      { r with
        mdata := OperationFactory.add r.mdata c.name
          { arity := 1, argTypes := (c.signature.drop 1).take 1, binding := dsBinding wp c,
            description := description, argMeta := [(arg1, arg1_description)] } })

end CommandRepository

/-- Every prototype stored in `simplecommands` was allocated before `heap`: the allocator has
handed out its address already. -/
def Allocated (r : CommandRepository) (heap : Nat) : Prop :=
  ∀ e ∈ r.simplecommands, e.2.addr < heap

instance (r : CommandRepository) (heap : Nat) : Decidable (Allocated r heap) := by
  unfold Allocated
  infer_instance

/-! ## Sample objects -/

/-- The repository of a component that registered nothing. -/
def emptyRepository : CommandRepository :=
  { simplecommands := [], mdata := [] }

/-- A local command implementation taking one integer. -/
def incrementImpl : DispatchInterface :=
  { addr := 0, state := ExecState.created,
    impl := CommandImpl.localCommand ["int"] 11 12 5 false }

/-- The command `increment` of the scenario of §8, a local command with one integer argument. -/
def incrementCommand : CommandT :=
  { name := "increment", signature := ["int"], impl := incrementImpl }

/-- A command `increment` whose implementation is a proxy, not a local command. -/
def remoteIncrement : CommandT :=
  { name := "increment", signature := ["int"],
    impl := { addr := 1, state := ExecState.created,
              impl := CommandImpl.remoteCommand ["int"] "peer" } }

/-- A weak-target command description named `increment`, for `addCommandDS`. -/
def incrementDS : CommandDS :=
  { name := "increment", signature := ["Counter", "int"], commandFunction := 21,
    conditionFunction := 22, commandProcessor := 5, inverted := false }

/-- The integer argument 5. -/
def five : DataSourceBase :=
  { typeName := "int", value := 5 }

/-- The repository after `addCommandDS( wp, increment, ... )` on the empty one: `increment` is
in the factory map only. -/
def weakOnlyRepository : CommandRepository :=
  (emptyRepository.addCommandDS1 9 incrementDS "adds to counter" "n" "amount").2

/-- The repository after `addCommand( &increment )` on the empty one: `increment` is in
`simplecommands` only. -/
def nativeOnlyRepository : CommandRepository :=
  (emptyRepository.addCommand 1 incrementCommand).2.1

/-- The repository after `addCommand( increment, "adds to counter", "n", "amount" )` on the
empty one: `increment` is in both maps. -/
def incrementRepository : CommandRepository :=
  (emptyRepository.addCommand1 1 incrementCommand "adds to counter" "n" "amount").2.1

end RTT

/-! ## The property extension of the control kernel (`PropertyExtension.cxx`) -/

namespace ORO_ControlKernel

open RTT

/-- Modelled from the spec: a `PropertyBag` of `corelib`, outside `PropertyExtension.cxx` (§1
names property marshalling as an external collaborator): the list of its named values. The
empty bag is the empty list. -/
abbrev PropertyBag := List (String × String)

/-- A `PropertyComponentInterface*`: the address of the component and the name of its local
store, `getLocalStore().getName()`, which the constructor fixes. The `master` member of the
component, the one member that changes, is kept in `Aspects.master`. -/
structure PropertyComponentInterface where
  addr : Nat
  name : String
  deriving DecidableEq, Repr

/-- A call that `PropertyExtension` makes on a collaborator, as recorded in the trace of a
member function: `comp->updateProperties( bag )`, `ComponentConfigurator::configure( filename,
target )`, `comp->exportProperties( bag )`, and the serialisation of a bag to a file. -/
inductive Call where
  | updateProperties (comp : Nat) (bag : PropertyBag)
  | configure (filename : String) (target : Nat)
  | exportProperties (comp : Nat)
  | serialize (filename : String)
  deriving DecidableEq, Repr

/-- The collaborators of the extension, which `PropertyExtension.cxx` only calls:
`kernel()->base()` (`none` when the pointer is null) with its `isStarted( name )`, the
`updateProperties( bag )` of the component at an address, `ComponentConfigurator::configure(
filename, target )`, and for the files whether one exists, whether `deserialize` parses it and
whether it can be opened for writing. -/
structure Env where
  base : Option (String → Bool)
  updateProperties : Nat → PropertyBag → Bool
  configure : String → Nat → Bool
  fileExists : String → Bool
  deserialize : String → Bool
  canWrite : String → Bool

/-- The members of `PropertyExtension` that its functions read or write: the component map
`myMap`, the vector `componentFileNames` of (component name, file name) properties, and the
five configuration properties. -/
structure PropertyExtension where
  addr : Nat
  myMap : StdMap PropertyComponentInterface
  componentFileNames : List (String × String)
  save_props : Bool
  configureOnLoad : Bool
  ignoreMissingFiles : Bool
  saveFilePrefix : String
  saveFileExtension : String
  deriving DecidableEq, Repr

/-- The state that `enableAspect` and `disableAspect` act on: one extension, and for every
component address the value of the `master` member of that component, `none` being the null
pointer. -/
structure Aspects where
  ext : PropertyExtension
  master : Nat → Option Nat

namespace PropertyExtension

/-- The constructor `PropertyExtension( _base )`: no component, no file name, and the default
values of the five properties. -/
def create (addr : Nat) : PropertyExtension :=
  { addr := addr, myMap := [], componentFileNames := [], save_props := false,
    configureOnLoad := true, ignoreMissingFiles := false, saveFilePrefix := "Exported_",
    saveFileExtension := "cpf" }

/-- The operand `kernel()->base() && kernel()->base()->isStarted( compname )`. -/
def isStarted (env : Env) (compname : String) : Bool :=
  match env.base with
  | none => false
  | some started => started compname

/-- The search `for ( it = componentFileNames.begin(); ... ) if ( (*it)->getName() == compname )`:
the value of the first listed property with that name. -/
def listedFile : List (String × String) → String → Option String
  | [], _ => none
  | (name, value) :: rest, compname =>
    if name = compname then some value else listedFile rest compname

/-- The function `configureComponent( filename, target )`: the result of
`cc.configure( filename, target )`. Returns the result and the calls made. -/
def configureComponent (env : Env) (filename : String) (target : PropertyComponentInterface) :
    Bool × List Call :=
  if !env.configure filename target.addr then (false, [Call.configure filename target.addr])
  else (true, [Call.configure filename target.addr])

/-- The function `readProperties( compname )`. False when the name is not in `myMap` or the
component is started. Otherwise the first listed file of that name is handed to
`configureComponent`; when none is listed and `ignoreMissingFiles` is off, the component gets
`updateProperties( emptyBag )`. Returns the result and the calls made. -/
def readProperties (env : Env) (ext : PropertyExtension) (compname : String) :
    Bool × List Call :=
  match StdMap.find ext.myMap compname with
  | none => (false, [])
  | some comp =>
    if isStarted env compname then (false, [])
    else
      match listedFile ext.componentFileNames compname with
      | some filename => configureComponent env filename comp
      | none =>
        if !ext.ignoreMissingFiles then
          if env.updateProperties comp.addr [] = false then
            (false, [Call.updateProperties comp.addr []])
          else (true, [Call.updateProperties comp.addr []])
        else (true, [])

/-- The function `writeProperties( compname )`. Its first statement is
`if ( myMap.find( compname ) == myMap.end() || ... ) ;` whose controlled statement is the empty
statement `;`, and the next statement is `return false;`: both outcomes of the test reach it.
Returns the result and the calls made. -/
def writeProperties (env : Env) (ext : PropertyExtension) (compname : String) :
    Bool × List Call :=
  if StdMap.find ext.myMap compname = none || isStarted env compname then (false, [])
  else (false, [])

/-- The statements of `writeProperties` after its `return false;`, which no call reaches: the
file name is the first listed one of that name, or prefix, name, dot and extension; an
existing file must parse; the component exports its properties, and the merged bag is
serialised when the file can be opened for writing. -/
def writePropertiesUnreached (env : Env) (ext : PropertyExtension)
    (comp : PropertyComponentInterface) (compname : String) : Bool × List Call :=
  let filename :=
    match listedFile ext.componentFileNames compname with
    | some value => if value.length = 0 then
        ext.saveFilePrefix ++ compname ++ "." ++ ext.saveFileExtension else value
    | none => ext.saveFilePrefix ++ compname ++ "." ++ ext.saveFileExtension
  if env.fileExists filename && !env.deserialize filename then (false, [])
  else if env.canWrite filename then
    (true, [Call.exportProperties comp.addr, Call.serialize filename])
  else (false, [Call.exportProperties comp.addr])

/-- The loop of `readAllProperties` and `writeAllProperties`: `fail` starts true, and for each
entry of `myMap` in order `fail = fail && call( tg->second->getLocalStore().getName() )`, where
`&&` evaluates its right operand only when `fail` is true. Returns the final `fail`, the names
the member function was called with, and the calls made. -/
def propertiesLoop (call : String → Bool × List Call) :
    StdMap PropertyComponentInterface → Bool → Bool × List String × List Call
  | [], fail => (fail, [], [])
  | (_, comp) :: rest, fail =>
    if fail then
      ((propertiesLoop call rest (call comp.name).1).1,
        comp.name :: (propertiesLoop call rest (call comp.name).1).2.1,
        (call comp.name).2 ++ (propertiesLoop call rest (call comp.name).1).2.2)
    else propertiesLoop call rest false

/-- The names of a list up to and including the first one for which `ok` is false: all of them
when `ok` holds throughout. -/
def untilFailure (ok : String → Bool) : List String → List String
  | [] => []
  | name :: rest => if ok name then name :: untilFailure ok rest else [name]

/-- The function `readAllProperties()`. -/
def readAllProperties (env : Env) (ext : PropertyExtension) : Bool × List String × List Call :=
  propertiesLoop (readProperties env ext) ext.myMap true

/-- The function `writeAllProperties()`. -/
def writeAllProperties (env : Env) (ext : PropertyExtension) : Bool × List String × List Call :=
  propertiesLoop (writeProperties env ext) ext.myMap true

/-- The function `addComponent( comp )`: refuse a name that `myMap` holds, otherwise store the
component under its name, and with `configureOnLoad` read its properties, erasing the entry
again when that fails. Returns the result, the extension and the calls made. -/
def addComponent (env : Env) (ext : PropertyExtension) (comp : PropertyComponentInterface) :
    Bool × PropertyExtension × List Call :=
  if StdMap.count ext.myMap comp.name ≠ 0 then (false, ext, [])
  else
    if ext.configureOnLoad then
      if (readProperties env
            { ext with myMap := StdMap.assign ext.myMap comp.name comp } comp.name).1 = false then
        (false,
          { ext with
            myMap := StdMap.erase (StdMap.assign ext.myMap comp.name comp) comp.name },
          (readProperties env
            { ext with myMap := StdMap.assign ext.myMap comp.name comp } comp.name).2)
      else
        (true, { ext with myMap := StdMap.assign ext.myMap comp.name comp },
          (readProperties env
            { ext with myMap := StdMap.assign ext.myMap comp.name comp } comp.name).2)
    else (true, { ext with myMap := StdMap.assign ext.myMap comp.name comp }, [])

/-- The function `removeComponent( comp )`: `myMap.erase( comp->getLocalStore().getName() )`. -/
def removeComponent (ext : PropertyExtension) (comp : PropertyComponentInterface) :
    PropertyExtension :=
  { ext with myMap := StdMap.erase ext.myMap comp.name }

end PropertyExtension

namespace PropertyComponentInterface

/-- The function `enableAspect( ext )` of the component `comp`: when `master` is null it is
set to the extension and the result is `master->addComponent( this )`; otherwise false. -/
def enableAspect (env : Env) (s : Aspects) (comp : PropertyComponentInterface) :
    Bool × Aspects × List Call :=
  match s.master comp.addr with
  | none =>
    ((PropertyExtension.addComponent env s.ext comp).1,
      { ext := (PropertyExtension.addComponent env s.ext comp).2.1,
        master := fun a => if a = comp.addr then some s.ext.addr else s.master a },
      (PropertyExtension.addComponent env s.ext comp).2.2)
  | some _ => (false, s, [])

/-- The function `disableAspect()` of the component `comp`: when `master` is not null,
`master->removeComponent( this )` and `master` becomes null. -/
def disableAspect (s : Aspects) (comp : PropertyComponentInterface) : Aspects :=
  match s.master comp.addr with
  | some _ =>
    { ext := PropertyExtension.removeComponent s.ext comp,
      master := fun a => if a = comp.addr then none else s.master a }
  | none => s

end PropertyComponentInterface

/-! ## Sample components -/

/-- Collaborators that accept everything: no kernel base, every bag and file accepted. -/
def acceptingEnv : Env :=
  { base := none, updateProperties := fun _ _ => true, configure := fun _ _ => true,
    fileExists := fun _ => false, deserialize := fun _ => true, canWrite := fun _ => true }

/-- Collaborators where the component at address 1 refuses every bag and every file. -/
def refusingEnv : Env :=
  { base := none, updateProperties := fun a _ => a != 1, configure := fun _ a => a != 1,
    fileExists := fun _ => false, deserialize := fun _ => true, canWrite := fun _ => true }

/-- The component `Alpha`, at address 1. -/
def alpha : PropertyComponentInterface :=
  { addr := 1, name := "Alpha" }

/-- The component `Beta`, at address 2. -/
def beta : PropertyComponentInterface :=
  { addr := 2, name := "Beta" }

/-- A second component that is also named `Alpha`, at address 3. -/
def alphaTwin : PropertyComponentInterface :=
  { addr := 3, name := "Alpha" }

/-- An extension at address 100 with `Alpha` and `Beta` registered and no property file. -/
def twoComponents : PropertyExtension :=
  { PropertyExtension.create 100 with myMap := [("Alpha", alpha), ("Beta", beta)] }

/-- The state before any aspect is enabled: a new extension, every `master` null. -/
def initialAspects : Aspects :=
  { ext := PropertyExtension.create 100, master := fun _ => none }

end ORO_ControlKernel

namespace RTT

/-! ## Lemmas on `std::map` -/

namespace StdMap

theorem count_ne_zero_iff {V : Type} (m : StdMap V) (k : String) :
    count m k ≠ 0 ↔ ∃ v, find m k = some v := by
  unfold count
  cases hf : find m k with
  | none => simp
  | some v => simp

theorem count_eq_zero_iff {V : Type} (m : StdMap V) (k : String) :
    count m k = 0 ↔ find m k = none := by
  unfold count
  cases hf : find m k with
  | none => simp
  | some v => simp

theorem find_assign_self {V : Type} (m : StdMap V) (k : String) (v : V) :
    find (assign m k v) k = some v := by
  induction m with
  | nil => simp [assign, find]
  | cons e rest ih =>
    obtain ⟨k', v'⟩ := e
    simp only [assign]
    split_ifs with h1 h2
    · simp [find]
    · simp [find]
    · simp [find, h1, ih]

theorem find_assign_other {V : Type} (m : StdMap V) (k k2 : String) (v : V) (hne : k2 ≠ k) :
    find (assign m k v) k2 = find m k2 := by
  induction m with
  | nil => simp [assign, find, Ne.symm hne]
  | cons e rest ih =>
    obtain ⟨k', v'⟩ := e
    simp only [assign]
    split_ifs with h1 h2
    · subst h1
      simp [find, Ne.symm hne]
    · simp [find, Ne.symm hne]
    · by_cases h3 : k' = k2
      · simp [find, h3]
      · simp [find, h3, ih]

theorem mem_assign {V : Type} (m : StdMap V) (k : String) (v : V) (e : String × V)
    (he : e ∈ assign m k v) : e = (k, v) ∨ e ∈ m := by
  induction m with
  | nil => simpa [assign] using he
  | cons e' rest ih =>
    obtain ⟨k', v'⟩ := e'
    simp only [assign] at he
    split_ifs at he with h1 h2
    · rcases List.mem_cons.1 he with h | h
      · exact Or.inl h
      · exact Or.inr (List.mem_cons_of_mem _ h)
    · rcases List.mem_cons.1 he with h | h
      · exact Or.inl h
      · exact Or.inr h
    · rcases List.mem_cons.1 he with h | h
      · exact Or.inr (h ▸ List.mem_cons_self _ _)
      · rcases ih h with h3 | h3
        · exact Or.inl h3
        · exact Or.inr (List.mem_cons_of_mem _ h3)

theorem key_ne_of_find_none {V : Type} (m : StdMap V) (k : String)
    (h : find m k = none) : ∀ e ∈ m, e.1 ≠ k := by
  induction m with
  | nil => intro e he; simp at he
  | cons e' rest ih =>
    obtain ⟨k', v'⟩ := e'
    simp only [find] at h
    split_ifs at h with h1
    intro e he
    rcases List.mem_cons.1 he with h2 | h2
    · subst h2
      exact h1
    · exact ih h e h2

theorem mem_assign_of_mem {V : Type} (m : StdMap V) (k : String) (v : V) (e : String × V)
    (he : e ∈ m) (hne : e.1 ≠ k) : e ∈ assign m k v := by
  induction m with
  | nil => simp at he
  | cons e' rest ih =>
    obtain ⟨k', v'⟩ := e'
    simp only [assign]
    split_ifs with h1 h2
    · rcases List.mem_cons.1 he with h | h
      · subst h
        exact absurd h1 hne
      · exact List.mem_cons_of_mem _ h
    · exact List.mem_cons_of_mem _ he
    · rcases List.mem_cons.1 he with h | h
      · subst h
        exact List.mem_cons_self _ _
      · exact List.mem_cons_of_mem _ (ih h)

theorem self_mem_assign {V : Type} (m : StdMap V) (k : String) (v : V) :
    (k, v) ∈ assign m k v := by
  induction m with
  | nil => simp [assign]
  | cons e' rest ih =>
    obtain ⟨k', v'⟩ := e'
    simp only [assign]
    split_ifs with h1 h2
    · exact List.mem_cons_self _ _
    · exact List.mem_cons_self _ _
    · exact List.mem_cons_of_mem _ ih

theorem mem_assign_iff {V : Type} (m : StdMap V) (k : String) (v : V) (e : String × V)
    (h : find m k = none) : e ∈ assign m k v ↔ e = (k, v) ∨ e ∈ m := by
  constructor
  · exact mem_assign m k v e
  · rintro (h1 | h1)
    · subst h1
      exact self_mem_assign m k v
    · exact mem_assign_of_mem m k v e h1 (key_ne_of_find_none m k h e h1)

theorem length_assign {V : Type} (m : StdMap V) (k : String) (v : V)
    (h : find m k = none) : (assign m k v).length = m.length + 1 := by
  induction m with
  | nil => simp [assign]
  | cons e' rest ih =>
    obtain ⟨k', v'⟩ := e'
    simp only [find] at h
    split_ifs at h with h1
    simp only [assign, h1, if_false]
    split_ifs with h2
    · simp
    · simp [ih h]

theorem erase_assign {V : Type} (m : StdMap V) (k : String) (v : V)
    (h : find m k = none) : erase (assign m k v) k = m := by
  induction m with
  | nil => simp [assign, erase]
  | cons e' rest ih =>
    obtain ⟨k', v'⟩ := e'
    simp only [find] at h
    split_ifs at h with h1
    simp only [assign, h1, if_false]
    split_ifs with h2
    · simp [erase]
    · simp [erase, h1, ih h]

end StdMap

namespace CommandRepository

/-! ## Lemmas on the registration functions -/

theorem allocated_emptyRepository (heap : Nat) : Allocated emptyRepository heap := by
  intro e he
  simp [emptyRepository] at he

theorem allocated_addCommand (r : CommandRepository) (heap : Nat) (com : CommandT)
    (h : Allocated r heap) :
    Allocated (addCommand r heap com).2.1 (addCommand r heap com).2.2 := by
  by_cases hc : StdMap.count r.simplecommands com.name = 0
  · simp only [addCommand, hc, ne_eq, not_true_eq_false, if_false]
    intro e he
    rcases StdMap.mem_assign _ _ _ _ he with h1 | h1
    · subst h1
      simp [DispatchInterface.clone]
    · exact Nat.lt_succ_of_lt (h e h1)
  · simpa [addCommand, hc] using h

theorem addCommand_of_count_ne_zero (r : CommandRepository) (heap : Nat) (com : CommandT)
    (h : StdMap.count r.simplecommands com.name ≠ 0) :
    addCommand r heap com = (false, r, heap) := by
  simp [addCommand, h]

theorem addCommand_of_count_eq_zero (r : CommandRepository) (heap : Nat) (com : CommandT)
    (h : StdMap.count r.simplecommands com.name = 0) :
    addCommand r heap com =
      (true,
        { r with
          simplecommands := StdMap.assign r.simplecommands com.name (com.impl.clone heap) },
        heap + 1) := by
  simp [addCommand, h]

theorem addCommandN_of_not_local (r : CommandRepository) (heap : Nat) (com : CommandT)
    (description : String) (argMeta : List (String × String))
    (h : dynamicCastLocalCommand com.signature com.impl = none) :
    addCommandN r heap com description argMeta = (false, r, heap) := by
  simp [addCommandN, h]

theorem addCommandN_of_duplicate (r : CommandRepository) (heap : Nat) (com : CommandT)
    (description : String) (argMeta : List (String × String))
    (h : StdMap.count r.simplecommands com.name ≠ 0) :
    addCommandN r heap com description argMeta = (false, r, heap) := by
  unfold addCommandN
  cases dynamicCastLocalCommand com.signature com.impl with
  | none => rfl
  | some lc => simp [addCommand_of_count_ne_zero r heap com h]

theorem addCommandN_of_fresh (r : CommandRepository) (heap : Nat) (com : CommandT)
    (description : String) (argMeta : List (String × String)) (lc : LocalCommand)
    (hlocal : dynamicCastLocalCommand com.signature com.impl = some lc)
    (h : StdMap.count r.simplecommands com.name = 0) :
    addCommandN r heap com description argMeta =
      (true,
        { simplecommands := StdMap.assign r.simplecommands com.name (com.impl.clone heap),
          mdata := OperationFactory.add r.mdata com.name
            (localPart com.signature lc description argMeta) },
        heap + 1) := by
  simp [addCommandN, hlocal, addCommand_of_count_eq_zero r heap com h]

theorem addCommandN_true_iff (r : CommandRepository) (heap : Nat) (com : CommandT)
    (description : String) (argMeta : List (String × String)) :
    (addCommandN r heap com description argMeta).1 = true ↔
      (∃ lc, dynamicCastLocalCommand com.signature com.impl = some lc) ∧
        StdMap.count r.simplecommands com.name = 0 := by
  cases hl : dynamicCastLocalCommand com.signature com.impl with
  | none => simp [addCommandN_of_not_local r heap com description argMeta hl]
  | some lc =>
    by_cases hc : StdMap.count r.simplecommands com.name = 0
    · simp [addCommandN_of_fresh r heap com description argMeta lc hl hc, hc]
    · simp [addCommandN_of_duplicate r heap com description argMeta hc, hc]

theorem getCondition_of_null_handle (r : CommandRepository) (heap : Nat) (name : String)
    (args : List DataSourceBase) (h : (getCommand r heap name args).1.ptr = none) :
    (getCondition r heap name args).1 = Outcome.nullDereference := by
  unfold getCondition
  unfold getCommand at h
  cases hp : OperationFactory.produce r.mdata heap name args with
  | mk di heap1 =>
    rw [hp] at h
    simp only at h
    simp [h]

/-! ## Claims -/

/-- C1 (amended): `addCommand( CommandT* com )` consults `simplecommands` alone. For every
repository state and every command whose name is already present in the native map, the call
returns false and leaves the repository, hence both maps, and the allocator unchanged. -/
theorem addCommand_refuses_native_duplicate (r : CommandRepository) (heap : Nat)
    (com : CommandT) (hdup : StdMap.count r.simplecommands com.name ≠ 0) :
    (addCommand r heap com).1 = false ∧
      (addCommand r heap com).2.1.simplecommands = r.simplecommands ∧
      (addCommand r heap com).2.1.mdata = r.mdata ∧
      addCommand r heap com = (false, r, heap) := by
  simp [addCommand_of_count_ne_zero r heap com hdup]

/-- Witness of C1: `increment` registered natively, then added again. -/
theorem addCommand_refuses_native_duplicate_witness :
    StdMap.count nativeOnlyRepository.simplecommands incrementCommand.name ≠ 0 ∧
      addCommand nativeOnlyRepository 2 incrementCommand = (false, nativeOnlyRepository, 2) :=
  ⟨by decide,
    (addCommand_refuses_native_duplicate nativeOnlyRepository 2 incrementCommand
      (by decide)).2.2.2⟩

/-- Counterexample to C1 as stated: `increment` is present in the factory map (registered by
`addCommandDS`), yet `addCommand( &increment )` returns true and the native map changes. -/
theorem addCommand_accepts_factory_only_name :
    weakOnlyRepository.hasMember incrementCommand.name = true ∧
      (addCommand weakOnlyRepository 1 incrementCommand).1 = true ∧
      (addCommand weakOnlyRepository 1 incrementCommand).2.1.simplecommands ≠
        weakOnlyRepository.simplecommands := by
  decide

/-- C2 (amended): the description-taking `addCommand` overloads guard the native map alone.
For every repository state and every local binding whose name is already present in the native
map, the call returns false and changes neither map; and whenever the call returns true, the
factory map afterwards holds, under the name, the Factory Adapter built for this binding. -/
theorem addCommandN_refuses_native_duplicate (r : CommandRepository) (heap : Nat)
    (com : CommandT) (description : String) (argMeta : List (String × String))
    (lc : LocalCommand) (hlocal : dynamicCastLocalCommand com.signature com.impl = some lc) :
    (StdMap.count r.simplecommands com.name ≠ 0 →
        addCommandN r heap com description argMeta = (false, r, heap)) ∧
      ((addCommandN r heap com description argMeta).1 = true →
        StdMap.find (addCommandN r heap com description argMeta).2.1.mdata com.name =
          some (localPart com.signature lc description argMeta)) := by
  refine ⟨addCommandN_of_duplicate r heap com description argMeta, ?_⟩
  intro htrue
  have hc := ((addCommandN_true_iff r heap com description argMeta).1 htrue).2
  rw [addCommandN_of_fresh r heap com description argMeta lc hlocal hc]
  exact StdMap.find_assign_self _ _ _

/-- Witness of C2: the local `increment` is refused by the repository that holds it, and is
registered with its one-argument adapter by the empty repository. -/
theorem addCommandN_refuses_native_duplicate_witness :
    addCommand1 incrementRepository 2 incrementCommand "again" "n" "amount" =
        (false, incrementRepository, 2) ∧
      StdMap.find (addCommand1 emptyRepository 1 incrementCommand "adds" "n" "amount").2.1.mdata
          "increment" =
        some (localPart ["int"] ⟨11, 12, 5, false⟩ "adds" [("n", "amount")]) :=
  ⟨(addCommandN_refuses_native_duplicate incrementRepository 2 incrementCommand "again"
      [("n", "amount")] ⟨11, 12, 5, false⟩ (by decide)).1 (by decide),
    (addCommandN_refuses_native_duplicate emptyRepository 1 incrementCommand "adds"
      [("n", "amount")] ⟨11, 12, 5, false⟩ (by decide)).2 (by decide)⟩

/-- Counterexample to C2 as stated: `increment` is registered in the factory map alone (by
`addCommandDS`); the description-taking `addCommand` of the local `increment` returns true and
the native map changes. -/
theorem addCommandN_accepts_factory_only_name :
    weakOnlyRepository.hasMember incrementCommand.name = true ∧
      dynamicCastLocalCommand incrementCommand.signature incrementCommand.impl ≠ none ∧
      (addCommand1 weakOnlyRepository 1 incrementCommand "adds" "n" "amount").1 = true ∧
      (addCommand1 weakOnlyRepository 1 incrementCommand "adds" "n" "amount").2.1.simplecommands ≠
        weakOnlyRepository.simplecommands := by
  decide

/-- C3 (amended): `addCommandDS` (arity 0 and 1) consults `hasMember` alone. For every
repository state, if the name is already present in the factory map, the call returns false and
leaves the repository, hence both maps, unchanged. -/
theorem addCommandDS_refuses_factory_duplicate (r : CommandRepository) (wp : Nat)
    (c : CommandDS) (description arg1 arg1_description : String)
    (hdup : r.hasMember c.name = true) :
    addCommandDS0 r wp c description = (false, r) ∧
      addCommandDS1 r wp c description arg1 arg1_description = (false, r) := by
  simp [addCommandDS0, addCommandDS1, hdup]

/-- Witness of C3: `increment` registered through `addCommandDS`, then added again. -/
theorem addCommandDS_refuses_factory_duplicate_witness :
    weakOnlyRepository.hasMember incrementDS.name = true ∧
      addCommandDS0 weakOnlyRepository 9 incrementDS "again" = (false, weakOnlyRepository) ∧
      addCommandDS1 weakOnlyRepository 9 incrementDS "again" "n" "amount" =
        (false, weakOnlyRepository) :=
  ⟨by decide,
    addCommandDS_refuses_factory_duplicate weakOnlyRepository 9 incrementDS "again" "n" "amount"
      (by decide)⟩

/-- Counterexample to C3 as stated: `increment` is registered natively only, through
`addCommand( &increment )`; both `addCommandDS` forms return true and change the factory map. -/
theorem addCommandDS_accepts_native_only_name :
    StdMap.count nativeOnlyRepository.simplecommands incrementDS.name ≠ 0 ∧
      (addCommandDS0 nativeOnlyRepository 9 incrementDS "adds").1 = true ∧
      (addCommandDS0 nativeOnlyRepository 9 incrementDS "adds").2.mdata ≠
        nativeOnlyRepository.mdata ∧
      (addCommandDS1 nativeOnlyRepository 9 incrementDS "adds" "n" "amount").1 = true ∧
      (addCommandDS1 nativeOnlyRepository 9 incrementDS "adds" "n" "amount").2.mdata ≠
        nativeOnlyRepository.mdata := by
  decide

/-- C5: the description-taking `addCommand` overloads return false and change neither map when
the implementation of the command is not a `LocalCommand` of the signature of the command,
whatever the repository state and whether or not the name is free. -/
theorem addCommandN_refuses_non_local (r : CommandRepository) (heap : Nat) (com : CommandT)
    (description : String) (argMeta : List (String × String))
    (hnot : dynamicCastLocalCommand com.signature com.impl = none) :
    (addCommandN r heap com description argMeta).1 = false ∧
      (addCommandN r heap com description argMeta).2.1.simplecommands = r.simplecommands ∧
      (addCommandN r heap com description argMeta).2.1.mdata = r.mdata := by
  simp [addCommandN_of_not_local r heap com description argMeta hnot]

/-- Witness of C5: the proxy `increment` is refused by the empty repository, where its name is
free. -/
theorem addCommandN_refuses_non_local_witness :
    dynamicCastLocalCommand remoteIncrement.signature remoteIncrement.impl = none ∧
      (addCommand1 emptyRepository 1 remoteIncrement "adds" "n" "amount").1 = false ∧
      (addCommand1 emptyRepository 1 remoteIncrement "adds" "n" "amount").2.1.simplecommands =
        [] ∧
      (addCommand1 emptyRepository 1 remoteIncrement "adds" "n" "amount").2.1.mdata = [] :=
  ⟨by decide,
    addCommandN_refuses_non_local emptyRepository 1 remoteIncrement "adds" [("n", "amount")]
      (by decide)⟩

/-- C4 (amended): registering a name twice through one registration path. On a repository
whose native map does not hold the name, the first `addCommand( CommandT* )` returns true, a
second one under the same name returns false and leaves the repository as the first call left
it, `getCommand<Signature>(name)` still returns a clone of the prototype of the first
registration, and `hasMember` answers for every name as it did before the two calls (this path
never touches the factory map). The same holds for the description-taking `addCommand` when
the first command is a local command, and then `hasMember(name)` is true. -/
theorem second_registration_refused (r : CommandRepository) (heap heap2 : Nat)
    (com com2 : CommandT) (description description2 : String)
    (argMeta argMeta2 : List (String × String))
    (hname : com2.name = com.name)
    (hfree : StdMap.count r.simplecommands com.name = 0) :
    (let s1 := addCommand r heap com
     let s2 := addCommand s1.2.1 s1.2.2 com2
     s1.1 = true ∧ s2.1 = false ∧ s2.2.1 = s1.2.1 ∧
       getCommandSig s2.2.1 heap2 com.name =
         (some ((com.impl.clone heap).clone heap2), s2.2.1, heap2 + 1) ∧
       ∀ n, s2.2.1.hasMember n = r.hasMember n) ∧
    (dynamicCastLocalCommand com.signature com.impl ≠ none →
     let s1 := addCommandN r heap com description argMeta
     let s2 := addCommandN s1.2.1 s1.2.2 com2 description2 argMeta2
     s1.1 = true ∧ s2.1 = false ∧ s2.2.1 = s1.2.1 ∧
       getCommandSig s2.2.1 heap2 com.name =
         (some ((com.impl.clone heap).clone heap2), s2.2.1, heap2 + 1) ∧
       s2.2.1.hasMember com.name = true) := by
  have hcount : ∀ m : StdMap OperationFactoryPart,
      StdMap.count
        ({ simplecommands := StdMap.assign r.simplecommands com.name (com.impl.clone heap),
           mdata := m } : CommandRepository).simplecommands com2.name ≠ 0 := by
    intro m
    rw [StdMap.count_ne_zero_iff, hname]
    exact ⟨_, StdMap.find_assign_self _ _ _⟩
  constructor
  · intro s1 s2
    have e1 : s1 = (true,
        { r with
          simplecommands := StdMap.assign r.simplecommands com.name (com.impl.clone heap) },
        heap + 1) := addCommand_of_count_eq_zero r heap com hfree
    have e2 : s2 = (false, s1.2.1, s1.2.2) := by
      apply addCommand_of_count_ne_zero
      rw [e1]
      exact hcount r.mdata
    rw [e2]
    rw [e1]
    refine ⟨rfl, rfl, rfl, ?_, fun n => rfl⟩
    simp [getCommandSig, StdMap.find_assign_self]
  · intro hlocal s1 s2
    obtain ⟨lc, hlc⟩ := Option.ne_none_iff_exists'.1 hlocal
    have e1 : s1 = _ := addCommandN_of_fresh r heap com description argMeta lc hlc hfree
    have e2 : s2 = (false, s1.2.1, s1.2.2) := by
      apply addCommandN_of_duplicate
      rw [e1]
      exact hcount _
    rw [e2]
    rw [e1]
    refine ⟨rfl, rfl, rfl, ?_, ?_⟩
    · simp [getCommandSig, StdMap.find_assign_self]
    · simp [hasMember, OperationFactory.hasMember, OperationFactory.add,
        StdMap.find_assign_self]

/-- Witness of C4: `increment` registered twice on the empty repository, through either path. -/
theorem second_registration_refused_witness :
    (addCommand (addCommand emptyRepository 1 incrementCommand).2.1 2 incrementCommand).1 =
        false ∧
      (addCommand1 (addCommand1 emptyRepository 1 incrementCommand "adds" "n" "amount").2.1 2
          incrementCommand "again" "n" "amount").2.1.hasMember "increment" = true :=
  ⟨(second_registration_refused emptyRepository 1 3 incrementCommand incrementCommand
      "adds" "again" [("n", "amount")] [("n", "amount")] rfl (by decide)).1.2.1,
    ((second_registration_refused emptyRepository 1 3 incrementCommand incrementCommand
      "adds" "again" [("n", "amount")] [("n", "amount")] rfl (by decide)).2
        (by decide)).2.2.2.2⟩

/-- Counterexample to C4 as stated. On the empty repository the first description-taking
`addCommand` of a proxy `increment` returns false; and after `addCommand( &increment )` twice
the name `increment` is not known to `hasMember`. -/
theorem duplicate_registration_claim_fails :
    (StdMap.count emptyRepository.simplecommands "increment" = 0 ∧
      emptyRepository.hasMember "increment" = false ∧
      (addCommand1 emptyRepository 1 remoteIncrement "adds" "n" "amount").1 = false) ∧
    ((addCommand emptyRepository 1 incrementCommand).1 = true ∧
      (addCommand (addCommand emptyRepository 1 incrementCommand).2.1 2 incrementCommand).1 =
        false ∧
      (addCommand (addCommand emptyRepository 1 incrementCommand).2.1 2
        incrementCommand).2.1.hasMember "increment" = false) := by
  decide

/-- C6: the description-taking `addCommand` of a local binding whose name is in neither map
returns true and registers the name in both maps: afterwards `getCommand<Signature>(name)` is
not null, `hasMember(name)` is true, and `getCommand(name, args)` returns, for every argument
list of the registered arity and types, a handle that is not null, newly allocated and in state
Created, made of the binding of the local command and these arguments. -/
theorem addCommandN_registers_in_both_maps (r : CommandRepository) (heap : Nat)
    (com : CommandT) (description : String) (argMeta : List (String × String))
    (lc : LocalCommand)
    (hlocal : dynamicCastLocalCommand com.signature com.impl = some lc)
    (hnative : StdMap.count r.simplecommands com.name = 0)
    (hfactory : r.hasMember com.name = false) :
    (addCommandN r heap com description argMeta).1 = true ∧
      StdMap.find (addCommandN r heap com description argMeta).2.1.simplecommands com.name =
        some (com.impl.clone heap) ∧
      StdMap.find (addCommandN r heap com description argMeta).2.1.mdata com.name =
        some (localPart com.signature lc description argMeta) ∧
      (∀ heap2,
        (getCommandSig (addCommandN r heap com description argMeta).2.1 heap2 com.name).1 ≠
          none) ∧
      (addCommandN r heap com description argMeta).2.1.hasMember com.name = true ∧
      ∀ (heap2 : Nat) (args : List DataSourceBase),
        args.length = argMeta.length →
        args.map DataSourceBase.typeName = com.signature.take argMeta.length →
        getCommand (addCommandN r heap com description argMeta).2.1 heap2 com.name args =
          (Produced.handle
            { addr := heap2, state := ExecState.created,
              impl := CommandImpl.dataSourceArgsCommand
                { action := CommandF.fn lc.commandFunction,
                  condition := CommandF.fn lc.conditionFunction,
                  processor := lc.commandProcessor, inverted := lc.inverted } args },
            heap2 + 1) := by
  have _ := hfactory
  rw [addCommandN_of_fresh r heap com description argMeta lc hlocal hnative]
  refine ⟨rfl, StdMap.find_assign_self _ _ _, StdMap.find_assign_self _ _ _, ?_, ?_, ?_⟩
  · intro heap2
    simp [getCommandSig, StdMap.find_assign_self]
  · simp [hasMember, OperationFactory.hasMember, OperationFactory.add, StdMap.find_assign_self]
  · intro heap2 args hlen htypes
    simp [getCommand, OperationFactory.produce, OperationFactory.add, StdMap.find_assign_self,
      OperationFactoryPart.produce, localPart, hlen, htypes]

/-- Witness of C6: `increment` registered on the empty repository, then looked up with the
argument list `[5]`. -/
theorem addCommandN_registers_in_both_maps_witness :
    (addCommand1 emptyRepository 1 incrementCommand "adds" "n" "amount").1 = true ∧
      getCommand (addCommand1 emptyRepository 1 incrementCommand "adds" "n" "amount").2.1 7
          "increment" [five] =
        (Produced.handle
          { addr := 7, state := ExecState.created,
            impl := CommandImpl.dataSourceArgsCommand
              { action := CommandF.fn 11, condition := CommandF.fn 12, processor := 5,
                inverted := false } [five] }, 8) :=
  ⟨(addCommandN_registers_in_both_maps emptyRepository 1 incrementCommand "adds"
      [("n", "amount")] ⟨11, 12, 5, false⟩ (by decide) (by decide) (by decide)).1,
    (addCommandN_registers_in_both_maps emptyRepository 1 incrementCommand "adds"
      [("n", "amount")] ⟨11, 12, 5, false⟩ (by decide) (by decide) (by decide)).2.2.2.2.2
        7 [five] (by decide) (by decide)⟩

/-- C8: a command registered by the description-taking `addCommand` overload with k argument
(name, description) pairs gets a Factory Adapter of arity k, and `getCommand(name, args)`
returns the `InvalidArguments` result, a null pointer, and allocates nothing, for every
argument list whose size differs from k. -/
theorem getCommand_wrong_arity (r : CommandRepository) (heap heap2 : Nat) (com : CommandT)
    (description : String) (argMeta : List (String × String)) (args : List DataSourceBase)
    (hadded : (addCommandN r heap com description argMeta).1 = true)
    (hsize : args.length ≠ argMeta.length) :
    (∃ part,
        StdMap.find (addCommandN r heap com description argMeta).2.1.mdata com.name =
          some part ∧ part.arity = argMeta.length) ∧
      getCommand (addCommandN r heap com description argMeta).2.1 heap2 com.name args =
        (Produced.invalidArguments, heap2) ∧
      (getCommand (addCommandN r heap com description argMeta).2.1 heap2 com.name args).1.ptr =
        none ∧
      ∀ later : CommandRepository,
        StdMap.find later.mdata com.name =
          StdMap.find (addCommandN r heap com description argMeta).2.1.mdata com.name →
        getCommand later heap2 com.name args = (Produced.invalidArguments, heap2) := by
  obtain ⟨⟨lc, hlc⟩, hc⟩ := (addCommandN_true_iff r heap com description argMeta).1 hadded
  rw [addCommandN_of_fresh r heap com description argMeta lc hlc hc]
  have hfind : StdMap.find (OperationFactory.add r.mdata com.name
      (localPart com.signature lc description argMeta)) com.name =
      some (localPart com.signature lc description argMeta) := StdMap.find_assign_self _ _ _
  have hget : ∀ later : CommandRepository,
      StdMap.find later.mdata com.name =
        some (localPart com.signature lc description argMeta) →
      getCommand later heap2 com.name args = (Produced.invalidArguments, heap2) := by
    intro later hlater
    simp [getCommand, OperationFactory.produce, hlater, OperationFactoryPart.produce, localPart,
      hsize]
  refine ⟨⟨localPart com.signature lc description argMeta, hfind, rfl⟩, hget _ hfind, ?_, ?_⟩
  · rw [hget _ hfind]
    rfl
  · intro later hlater
    exact hget later (hlater.trans hfind)

/-- Witness of C8: `increment`, registered with one argument pair, looked up with no argument
and with two. -/
theorem getCommand_wrong_arity_witness :
    getCommand (addCommand1 emptyRepository 1 incrementCommand "adds" "n" "amount").2.1 7
        "increment" [] = (Produced.invalidArguments, 7) ∧
      getCommand (addCommand1 emptyRepository 1 incrementCommand "adds" "n" "amount").2.1 7
        "increment" [five, five] = (Produced.invalidArguments, 7) :=
  ⟨(getCommand_wrong_arity emptyRepository 1 7 incrementCommand "adds" [("n", "amount")] []
      (by decide) (by decide)).2.1,
    (getCommand_wrong_arity emptyRepository 1 7 incrementCommand "adds" [("n", "amount")]
      [five, five] (by decide) (by decide)).2.1⟩

/-- C7, evaluation of the code at the failing inputs: for a name absent from the factory map
and for an argument list of the wrong size, `getCommand` returns its null result, while
`getCondition` calls `createCondition()` through that null pointer instead of returning a null
condition. -/
theorem getCondition_null_handle :
    getCommand emptyRepository 0 "unknown" [] = (Produced.notFound, 0) ∧
      getCondition emptyRepository 0 "unknown" [] = (Outcome.nullDereference, 0) ∧
      getCommand incrementRepository 7 "increment" [] = (Produced.invalidArguments, 7) ∧
      getCondition incrementRepository 7 "increment" [] = (Outcome.nullDereference, 7) ∧
      getCondition incrementRepository 7 "increment" [five] =
        (Outcome.returned
          (some (ConditionInterface.mk (CommandImpl.dataSourceArgsCommand
            (DataSourceArgsCommand.mk (CommandF.fn 11) (CommandF.fn 12) 5 false) [five]))),
          8) := by
  decide

/-- C9: `getCommand<Signature>(name)` without the remoting extension. For a name present in
the native map it returns a clone of the stored prototype, a handle with the same
implementation at an address no stored prototype has, and it leaves the repository, hence both
maps, unchanged; for a name absent from the native map it returns null and leaves the
repository unchanged, whatever the factory map holds. -/
theorem getCommandSig_clone_or_null (r : CommandRepository) (heap : Nat) (name : String)
    (halloc : Allocated r heap) :
    (∀ proto, StdMap.find r.simplecommands name = some proto →
        getCommandSig r heap name = (some (proto.clone heap), r, heap + 1) ∧
          (proto.clone heap).impl = proto.impl ∧
          ∀ e ∈ r.simplecommands, (proto.clone heap).addr ≠ e.2.addr) ∧
      (StdMap.count r.simplecommands name = 0 →
        getCommandSig r heap name = (none, r, heap)) := by
  constructor
  · intro proto hfind
    refine ⟨?_, rfl, ?_⟩
    · simp [getCommandSig, hfind]
    · intro e he
      have hlt := halloc e he
      simp only [DispatchInterface.clone]
      omega
  · intro habsent
    have hfind := (StdMap.count_eq_zero_iff _ _).1 habsent
    simp [getCommandSig, hfind]

/-- Witness of C9: the natively registered `increment` is cloned at the fresh address 2, and
the `increment` known to the factory map alone gives null. -/
theorem getCommandSig_clone_or_null_witness :
    getCommandSig nativeOnlyRepository 2 "increment" =
        (some ((incrementImpl.clone 1).clone 2), nativeOnlyRepository, 3) ∧
      weakOnlyRepository.hasMember "increment" = true ∧
      getCommandSig weakOnlyRepository 2 "increment" = (none, weakOnlyRepository, 2) :=
  ⟨((getCommandSig_clone_or_null nativeOnlyRepository 2 "increment" (by decide)).1
      (incrementImpl.clone 1) (by decide)).1,
    by decide,
    (getCommandSig_clone_or_null weakOnlyRepository 2 "increment" (by decide)).2 (by decide)⟩

theorem clearLoop_eq_nil (m : StdMap DispatchInterface) : clearLoop m = [] := by
  induction m with
  | nil => simp [clearLoop]
  | cons e rest ih => simpa [clearLoop, StdMap.eraseBegin] using ih

/-- C10: `clear()` is a total function, so it terminates from every repository state, and it
leaves both maps empty: afterwards, for every name, `getCommand<Signature>(name)` returns null,
`hasMember(name)` is false and `getCommand(name, args)` returns the `NotFound` result; calling
`clear()` again changes nothing. -/
theorem clear_empties_both_maps (r : CommandRepository) :
    (clear r).simplecommands = [] ∧ (clear r).mdata = [] ∧
      (∀ (heap : Nat) (name : String),
        getCommandSig (clear r) heap name = (none, clear r, heap)) ∧
      (∀ name : String, (clear r).hasMember name = false) ∧
      (∀ (heap : Nat) (name : String) (args : List DataSourceBase),
        getCommand (clear r) heap name args = (Produced.notFound, heap)) ∧
      clear (clear r) = clear r := by
  have hc : clear r = emptyRepository := by
    simp [clear, clearLoop_eq_nil, OperationFactory.clear, emptyRepository]
  rw [hc]
  refine ⟨rfl, rfl, fun _ _ => rfl, fun _ => rfl, fun _ _ _ => rfl, ?_⟩
  simp [clear, clearLoop_eq_nil, OperationFactory.clear, emptyRepository]

/-- C11: `addCommand( CommandT* com )` changes the native map only. The factory map is the
same before and after the call, so `hasMember(name)` and `getCommand(name, args)` give the same
results as before; and when the call returns true the native map has gained exactly one entry,
keyed by the name of the command and holding a clone of its implementation, every other entry
being unchanged. -/
theorem addCommand_changes_native_map_only (r : CommandRepository) (heap : Nat)
    (com : CommandT) :
    (addCommand r heap com).2.1.mdata = r.mdata ∧
      (∀ name : String, (addCommand r heap com).2.1.hasMember name = r.hasMember name) ∧
      (∀ (heap2 : Nat) (name : String) (args : List DataSourceBase),
        getCommand (addCommand r heap com).2.1 heap2 name args =
          getCommand r heap2 name args) ∧
      ((addCommand r heap com).1 = true →
        (∀ e, e ∈ (addCommand r heap com).2.1.simplecommands ↔
          e = (com.name, com.impl.clone heap) ∨ e ∈ r.simplecommands) ∧
        (addCommand r heap com).2.1.simplecommands.length = r.simplecommands.length + 1 ∧
        StdMap.find (addCommand r heap com).2.1.simplecommands com.name =
          some (com.impl.clone heap) ∧
        (com.impl.clone heap).impl = com.impl.impl ∧
        ∀ name : String, name ≠ com.name →
          StdMap.find (addCommand r heap com).2.1.simplecommands name =
            StdMap.find r.simplecommands name) := by
  by_cases hc : StdMap.count r.simplecommands com.name = 0
  · have hfind := (StdMap.count_eq_zero_iff _ _).1 hc
    rw [addCommand_of_count_eq_zero r heap com hc]
    refine ⟨rfl, fun _ => rfl, fun _ _ _ => rfl, fun _ => ⟨?_, ?_, ?_, rfl, ?_⟩⟩
    · intro e
      exact StdMap.mem_assign_iff _ _ _ e hfind
    · exact StdMap.length_assign _ _ _ hfind
    · exact StdMap.find_assign_self _ _ _
    · intro name hne
      exact StdMap.find_assign_other _ _ _ _ hne
  · rw [addCommand_of_count_ne_zero r heap com hc]
    refine ⟨rfl, fun _ => rfl, fun _ _ _ => rfl, ?_⟩
    intro h
    simp at h

/-- Witness of C11: `addCommand( &increment )` on the repository that knows `increment` through
`addCommandDS` only returns true, keeps the factory map and adds the one native entry. -/
theorem addCommand_changes_native_map_only_witness :
    (addCommand weakOnlyRepository 1 incrementCommand).1 = true ∧
      (addCommand weakOnlyRepository 1 incrementCommand).2.1.mdata = weakOnlyRepository.mdata ∧
      (addCommand weakOnlyRepository 1 incrementCommand).2.1.simplecommands.length =
        weakOnlyRepository.simplecommands.length + 1 :=
  ⟨by decide,
    (addCommand_changes_native_map_only weakOnlyRepository 1 incrementCommand).1,
    ((addCommand_changes_native_map_only weakOnlyRepository 1 incrementCommand).2.2.2
      (by decide)).2.1⟩

/-- C14: after a successful description-taking `addCommand` the Command Binding stored in the
inserted Factory Adapter has the action function, the completion predicate function, the
processor and the inverted flag of the registered local command, each in its own place; after
a successful `addCommandDS` (arity 0 and 1) the action and the completion functor are both
built over the weak reference source passed in, from the command function and the condition
function in this order, with the processor and the inverted flag of the command. -/
theorem registered_binding_matches_command (r : CommandRepository) (heap wp : Nat)
    (com : CommandT) (c : CommandDS) (description arg1 arg1_description : String)
    (argMeta : List (String × String)) (sig : Signature) (action cond proc : Nat) (inv : Bool)
    (himpl : com.impl.impl = CommandImpl.localCommand sig action cond proc inv) :
    ((addCommandN r heap com description argMeta).1 = true →
        ∃ part, StdMap.find (addCommandN r heap com description argMeta).2.1.mdata com.name =
            some part ∧
          part.binding.action = CommandF.fn action ∧
          part.binding.condition = CommandF.fn cond ∧
          part.binding.processor = proc ∧ part.binding.inverted = inv) ∧
      ((addCommandDS0 r wp c description).1 = true →
        ∃ part, StdMap.find (addCommandDS0 r wp c description).2.mdata c.name = some part ∧
          part.binding.action = CommandF.ds wp c.commandFunction ∧
          part.binding.condition = CommandF.ds wp c.conditionFunction ∧
          part.binding.processor = c.commandProcessor ∧
          part.binding.inverted = c.inverted) ∧
      ((addCommandDS1 r wp c description arg1 arg1_description).1 = true →
        ∃ part,
          StdMap.find (addCommandDS1 r wp c description arg1 arg1_description).2.mdata c.name =
            some part ∧
          part.binding.action = CommandF.ds wp c.commandFunction ∧
          part.binding.condition = CommandF.ds wp c.conditionFunction ∧
          part.binding.processor = c.commandProcessor ∧
          part.binding.inverted = c.inverted) := by
  refine ⟨?_, ?_, ?_⟩
  · intro hadded
    obtain ⟨⟨lc, hlc⟩, hc⟩ := (addCommandN_true_iff r heap com description argMeta).1 hadded
    rw [addCommandN_of_fresh r heap com description argMeta lc hlc hc]
    refine ⟨localPart com.signature lc description argMeta, StdMap.find_assign_self _ _ _, ?_⟩
    unfold dynamicCastLocalCommand at hlc
    rw [himpl] at hlc
    simp only at hlc
    split_ifs at hlc with hs
    have hlc2 := (Option.some.inj hlc).symm
    subst hlc2
    exact ⟨rfl, rfl, rfl, rfl⟩
  · intro hadded
    by_cases hm : r.hasMember c.name = true
    · simp [addCommandDS0, hm] at hadded
    · simp only [addCommandDS0, hm]
      exact ⟨_, StdMap.find_assign_self _ _ _, rfl, rfl, rfl, rfl⟩
  · intro hadded
    by_cases hm : r.hasMember c.name = true
    · simp [addCommandDS1, hm] at hadded
    · simp only [addCommandDS1, hm]
      exact ⟨_, StdMap.find_assign_self _ _ _, rfl, rfl, rfl, rfl⟩

/-- Witness of C14: the adapters stored for `increment` by the one-argument `addCommand` and by
the one-argument `addCommandDS` on the empty repository. -/
theorem registered_binding_matches_command_witness :
    (∃ part, StdMap.find
          (addCommandN emptyRepository 1 incrementCommand "adds" [("n", "amount")]).2.1.mdata
          "increment" = some part ∧
        part.binding.action = CommandF.fn 11 ∧ part.binding.condition = CommandF.fn 12 ∧
        part.binding.processor = 5 ∧ part.binding.inverted = false) ∧
      (∃ part, StdMap.find
          (addCommandDS1 emptyRepository 9 incrementDS "adds" "n" "amount").2.mdata
          "increment" = some part ∧
        part.binding.action = CommandF.ds 9 21 ∧ part.binding.condition = CommandF.ds 9 22 ∧
        part.binding.processor = 5 ∧ part.binding.inverted = false) :=
  ⟨(registered_binding_matches_command emptyRepository 1 9 incrementCommand incrementDS "adds"
      "n" "amount" [("n", "amount")] ["int"] 11 12 5 false rfl).1 (by decide),
    (registered_binding_matches_command emptyRepository 1 9 incrementCommand incrementDS "adds"
      "n" "amount" [("n", "amount")] ["int"] 11 12 5 false rfl).2.2 (by decide)⟩

end CommandRepository

end RTT

namespace ORO_ControlKernel

open RTT

namespace PropertyExtension

/-! ## Lemmas on the property extension -/

theorem listedFile_none (files : List (String × String)) (compname : String)
    (h : ∀ e ∈ files, e.1 ≠ compname) : listedFile files compname = none := by
  induction files with
  | nil => rfl
  | cons e rest ih =>
    obtain ⟨name, value⟩ := e
    have h1 : name ≠ compname := h (name, value) (List.mem_cons_self _ _)
    simp only [listedFile, h1, if_false]
    exact ih (fun e he => h e (List.mem_cons_of_mem _ he))

theorem listedFile_first (before after : List (String × String)) (compname filename : String)
    (h : ∀ e ∈ before, e.1 ≠ compname) :
    listedFile (before ++ (compname, filename) :: after) compname = some filename := by
  induction before with
  | nil => simp [listedFile]
  | cons e rest ih =>
    obtain ⟨name, value⟩ := e
    have h1 : name ≠ compname := h (name, value) (List.mem_cons_self _ _)
    simp only [List.cons_append, listedFile, h1, if_false]
    exact ih (fun e he => h e (List.mem_cons_of_mem _ he))

theorem configureComponent_eq (env : Env) (filename : String)
    (target : PropertyComponentInterface) :
    configureComponent env filename target =
      (env.configure filename target.addr, [Call.configure filename target.addr]) := by
  unfold configureComponent
  cases env.configure filename target.addr <;> rfl

theorem writeProperties_eq (env : Env) (ext : PropertyExtension) (compname : String) :
    writeProperties env ext compname = (false, []) := by
  unfold writeProperties
  split <;> rfl

theorem propertiesLoop_false (call : String → Bool × List Call)
    (m : StdMap PropertyComponentInterface) : propertiesLoop call m false = (false, [], []) := by
  induction m with
  | nil => rfl
  | cons e rest ih =>
    obtain ⟨k, comp⟩ := e
    simp only [propertiesLoop]
    exact ih

theorem propertiesLoop_true_iff (call : String → Bool × List Call)
    (m : StdMap PropertyComponentInterface) :
    (propertiesLoop call m true).1 = true ↔ ∀ e ∈ m, (call e.2.name).1 = true := by
  induction m with
  | nil => simp [propertiesLoop]
  | cons e rest ih =>
    obtain ⟨k, comp⟩ := e
    simp only [propertiesLoop, if_true]
    cases hc : (call comp.name).1 with
    | false =>
      rw [propertiesLoop_false]
      constructor
      · intro h
        simp at h
      · intro h
        have := h (k, comp) (List.mem_cons_self _ _)
        simp [hc] at this
    | true =>
      rw [ih]
      constructor
      · intro h e he
        rcases List.mem_cons.1 he with h1 | h1
        · subst h1
          exact hc
        · exact h e h1
      · intro h e he
        exact h e (List.mem_cons_of_mem _ he)

theorem propertiesLoop_tried (call : String → Bool × List Call)
    (m : StdMap PropertyComponentInterface) :
    (propertiesLoop call m true).2.1 =
      untilFailure (fun n => (call n).1) (m.map (fun e => e.2.name)) := by
  induction m with
  | nil => rfl
  | cons e rest ih =>
    obtain ⟨k, comp⟩ := e
    simp only [propertiesLoop, if_true, List.map_cons, untilFailure]
    cases hc : (call comp.name).1 with
    | false => simp [propertiesLoop_false]
    | true => simp [ih]

/-! ## Claims on the property extension -/

/-- C12, evaluation of the code at the failing input: `Alpha` is registered and not started,
and its target file `Exported_Alpha.cpf` does not exist and can be opened for writing; yet
`writeProperties( "Alpha" )` returns false and makes no call, because of the `;` that ends its
first `if`. The statements behind the `return false;` would export the properties, serialise
them and return true. -/
theorem writeProperties_returns_false :
    StdMap.find twoComponents.myMap "Alpha" = some alpha ∧
      isStarted acceptingEnv "Alpha" = false ∧
      acceptingEnv.fileExists "Exported_Alpha.cpf" = false ∧
      acceptingEnv.canWrite "Exported_Alpha.cpf" = true ∧
      writeProperties acceptingEnv twoComponents "Alpha" = (false, []) ∧
      writePropertiesUnreached acceptingEnv twoComponents alpha "Alpha" =
        (true, [Call.exportProperties 1, Call.serialize "Exported_Alpha.cpf"]) := by
  decide

/-- C13: `readProperties( compname )` for a registered component that is not started. With no
entry of that name among the listed property files: when `IgnoreMissingFiles` is true no call
is made on the component and the result is true; when it is false `updateProperties` is called
exactly once, with the empty bag, and the result is what the component answers. When a file is
listed, the first entry of that name is used: `configure` is called once on its file and the
result is that of `configureComponent`. -/
theorem readProperties_registered (env : Env) (ext : PropertyExtension) (compname : String)
    (comp : PropertyComponentInterface)
    (hreg : StdMap.find ext.myMap compname = some comp)
    (hstopped : isStarted env compname = false) :
    ((∀ e ∈ ext.componentFileNames, e.1 ≠ compname) →
        (ext.ignoreMissingFiles = true → readProperties env ext compname = (true, [])) ∧
        (ext.ignoreMissingFiles = false →
          readProperties env ext compname =
            (env.updateProperties comp.addr [], [Call.updateProperties comp.addr []]))) ∧
      (∀ (before after : List (String × String)) (filename : String),
        ext.componentFileNames = before ++ (compname, filename) :: after →
        (∀ e ∈ before, e.1 ≠ compname) →
        readProperties env ext compname = configureComponent env filename comp ∧
          readProperties env ext compname =
            (env.configure filename comp.addr, [Call.configure filename comp.addr])) := by
  constructor
  · intro hnone
    have hl := listedFile_none ext.componentFileNames compname hnone
    constructor
    · intro hi
      simp [readProperties, hreg, hstopped, hl, hi]
    · intro hi
      cases hu : env.updateProperties comp.addr [] <;>
        simp [readProperties, hreg, hstopped, hl, hi, hu]
  · intro before after filename hfiles hbefore
    have hl : listedFile ext.componentFileNames compname = some filename := by
      rw [hfiles]
      exact listedFile_first before after compname filename hbefore
    have h1 : readProperties env ext compname = configureComponent env filename comp := by
      simp [readProperties, hreg, hstopped, hl]
    exact ⟨h1, h1.trans (configureComponent_eq env filename comp)⟩

/-- Witness of C13: `Alpha`, registered with no property file listed, is asked once to accept
the empty bag and refuses; with the file `alpha.cpf` listed second, after a file of `Beta`,
that file is configured. -/
theorem readProperties_registered_witness :
    readProperties refusingEnv twoComponents "Alpha" =
        (false, [Call.updateProperties 1 []]) ∧
      readProperties acceptingEnv
          { twoComponents with
            componentFileNames := [("Beta", "beta.cpf"), ("Alpha", "alpha.cpf"),
              ("Alpha", "other.cpf")] } "Alpha" =
        (true, [Call.configure "alpha.cpf" 1]) :=
  ⟨((readProperties_registered refusingEnv twoComponents "Alpha" alpha (by decide)
      (by decide)).1 (by decide)).2 (by decide),
    ((readProperties_registered acceptingEnv
      { twoComponents with
        componentFileNames := [("Beta", "beta.cpf"), ("Alpha", "alpha.cpf"),
          ("Alpha", "other.cpf")] } "Alpha" alpha (by decide) (by decide)).2
      [("Beta", "beta.cpf")] [("Alpha", "other.cpf")] "alpha.cpf" rfl (by decide)).2⟩

/-- C15: `addComponent( comp )` is atomic on the component map. It returns false exactly when
a component of that name is registered already, or `ConfigureOnLoad` is set and
`readProperties` fails for the name once the component is entered; then the extension, and so
the map, is exactly as it was. Otherwise it returns true and the map differs from the old one
by exactly the new entry from the name to the component. -/
theorem addComponent_atomic (env : Env) (ext : PropertyExtension)
    (comp : PropertyComponentInterface) :
    ((addComponent env ext comp).1 = false ↔
        StdMap.count ext.myMap comp.name ≠ 0 ∨
          (ext.configureOnLoad = true ∧
            (readProperties env { ext with myMap := StdMap.assign ext.myMap comp.name comp }
              comp.name).1 = false)) ∧
      ((addComponent env ext comp).1 = false → (addComponent env ext comp).2.1 = ext) ∧
      ((addComponent env ext comp).1 = true →
        (addComponent env ext comp).2.1 =
            { ext with myMap := StdMap.assign ext.myMap comp.name comp } ∧
          (∀ e, e ∈ (addComponent env ext comp).2.1.myMap ↔
            e = (comp.name, comp) ∨ e ∈ ext.myMap) ∧
          (addComponent env ext comp).2.1.myMap.length = ext.myMap.length + 1 ∧
          StdMap.find (addComponent env ext comp).2.1.myMap comp.name = some comp ∧
          ∀ name : String, name ≠ comp.name →
            StdMap.find (addComponent env ext comp).2.1.myMap name =
              StdMap.find ext.myMap name) := by
  by_cases hc : StdMap.count ext.myMap comp.name = 0
  · have hfind := (StdMap.count_eq_zero_iff _ _).1 hc
    have hnew : ∀ b : Bool × PropertyExtension × List Call,
        b.2.1 = { ext with myMap := StdMap.assign ext.myMap comp.name comp } →
        b.2.1 = { ext with myMap := StdMap.assign ext.myMap comp.name comp } ∧
          (∀ e, e ∈ b.2.1.myMap ↔ e = (comp.name, comp) ∨ e ∈ ext.myMap) ∧
          b.2.1.myMap.length = ext.myMap.length + 1 ∧
          StdMap.find b.2.1.myMap comp.name = some comp ∧
          ∀ name : String, name ≠ comp.name →
            StdMap.find b.2.1.myMap name = StdMap.find ext.myMap name := by
      intro b hb
      rw [hb]
      exact ⟨rfl, fun e => StdMap.mem_assign_iff _ _ _ e hfind,
        StdMap.length_assign _ _ _ hfind, StdMap.find_assign_self _ _ _,
        fun name hne => StdMap.find_assign_other _ _ _ _ hne⟩
    by_cases hl : ext.configureOnLoad = true
    · cases hr : (readProperties env
          { ext with myMap := StdMap.assign ext.myMap comp.name comp } comp.name).1 with
      | false =>
        have hres : addComponent env ext comp =
            (false,
              { ext with
                myMap := StdMap.erase (StdMap.assign ext.myMap comp.name comp) comp.name },
              (readProperties env
                { ext with myMap := StdMap.assign ext.myMap comp.name comp } comp.name).2) := by
          unfold addComponent
          rw [if_neg (not_not.mpr hc), if_pos hl, if_pos hr]
        rw [hres]
        refine ⟨⟨fun _ => Or.inr ⟨hl, rfl⟩, fun _ => rfl⟩, ?_, by simp⟩
        intro _
        simp [StdMap.erase_assign _ _ _ hfind]
      | true =>
        have hres : addComponent env ext comp =
            (true, { ext with myMap := StdMap.assign ext.myMap comp.name comp },
              (readProperties env
                { ext with myMap := StdMap.assign ext.myMap comp.name comp } comp.name).2) := by
          unfold addComponent
          rw [if_neg (not_not.mpr hc), if_pos hl, if_neg (by rw [hr]; simp)]
        rw [hres]
        refine ⟨⟨fun h => by simp at h, ?_⟩, by simp, fun _ => hnew _ rfl⟩
        rintro (h | ⟨_, h⟩)
        · exact absurd hc h
        · simp at h
    · have hres : addComponent env ext comp =
          (true, { ext with myMap := StdMap.assign ext.myMap comp.name comp }, []) := by
        unfold addComponent
        rw [if_neg (not_not.mpr hc), if_neg hl]
      rw [hres]
      refine ⟨⟨fun h => by simp at h, ?_⟩, by simp, fun _ => hnew _ rfl⟩
      rintro (h | ⟨h, _⟩)
      · exact absurd hc h
      · exact absurd h hl
  · have hres : addComponent env ext comp = (false, ext, []) := by
      simp [addComponent, hc]
    rw [hres]
    exact ⟨by simp [hc], by simp, by simp⟩

/-- Witness of C15: `Alpha` is refused by the extension that holds an `Alpha`, and by a new
extension when it refuses the empty bag, the extension being unchanged both times; it is
entered when it accepts the bag. -/
theorem addComponent_atomic_witness :
    (addComponent acceptingEnv twoComponents alphaTwin).2.1 = twoComponents ∧
      (addComponent refusingEnv (create 100) alpha).2.1 = create 100 ∧
      (addComponent acceptingEnv (create 100) alpha).2.1.myMap = [("Alpha", alpha)] :=
  ⟨(addComponent_atomic acceptingEnv twoComponents alphaTwin).2.1 (by decide),
    (addComponent_atomic refusingEnv (create 100) alpha).2.1 (by decide),
    by
      rw [((addComponent_atomic acceptingEnv (create 100) alpha).2.2 (by decide)).1]
      decide⟩

/-- C16 (amended): `readAllProperties` and `writeAllProperties` return true exactly when
`readProperties`, respectively `writeProperties`, returns true for every registered component,
and true when no component is registered. The components are attempted in the order of the
map up to and including the first one whose read or write fails; those after it are not
attempted. -/
theorem allProperties_stop_at_first_failure (env : Env) (ext : PropertyExtension) :
    ((readAllProperties env ext).1 = true ↔
        ∀ e ∈ ext.myMap, (readProperties env ext e.2.name).1 = true) ∧
      ((writeAllProperties env ext).1 = true ↔
        ∀ e ∈ ext.myMap, (writeProperties env ext e.2.name).1 = true) ∧
      (ext.myMap = [] →
        readAllProperties env ext = (true, [], []) ∧
          writeAllProperties env ext = (true, [], [])) ∧
      (readAllProperties env ext).2.1 =
        untilFailure (fun n => (readProperties env ext n).1)
          (ext.myMap.map (fun e => e.2.name)) ∧
      (writeAllProperties env ext).2.1 =
        untilFailure (fun n => (writeProperties env ext n).1)
          (ext.myMap.map (fun e => e.2.name)) := by
  refine ⟨propertiesLoop_true_iff _ _, propertiesLoop_true_iff _ _, ?_,
    propertiesLoop_tried _ _, propertiesLoop_tried _ _⟩
  intro hempty
  simp [readAllProperties, writeAllProperties, hempty, propertiesLoop]

/-- Witness of C16: with `Alpha` and `Beta` registered and accepting, both are read; with no
component registered both functions return true. -/
theorem allProperties_stop_at_first_failure_witness :
    (readAllProperties acceptingEnv twoComponents).2.1 = ["Alpha", "Beta"] ∧
      readAllProperties acceptingEnv (create 100) = (true, [], []) ∧
      writeAllProperties acceptingEnv (create 100) = (true, [], []) :=
  ⟨by
      rw [(allProperties_stop_at_first_failure acceptingEnv twoComponents).2.2.2.1]
      decide,
    ((allProperties_stop_at_first_failure acceptingEnv (create 100)).2.2.1 rfl).1,
    ((allProperties_stop_at_first_failure acceptingEnv (create 100)).2.2.1 rfl).2⟩

/-- Counterexample to C16 as stated: `Alpha` and `Beta` are registered, the read of `Alpha`
fails, and `readAllProperties` never calls `readProperties( "Beta" )`, although that call
would succeed. -/
theorem readAllProperties_skips_after_failure :
    StdMap.find twoComponents.myMap "Beta" = some beta ∧
      (readProperties refusingEnv twoComponents "Alpha").1 = false ∧
      (readProperties refusingEnv twoComponents "Beta").1 = true ∧
      readAllProperties refusingEnv twoComponents =
        (false, ["Alpha"], [Call.updateProperties 1 []]) ∧
      "Beta" ∉ (readAllProperties refusingEnv twoComponents).2.1 := by
  decide

end PropertyExtension

namespace PropertyComponentInterface

/-- C17, evaluation of the code at the failing input: `Alpha` is enabled on a new extension,
then a second component named `Alpha` is enabled and refused. The refused component is left
with its `master` set although the map holds the first component under that name, and its
`disableAspect` then erases the registration of the first component, whose `master` stays
set. -/
theorem enableAspect_failure_keeps_master :
    (enableAspect acceptingEnv initialAspects alpha).1 = true ∧
      (enableAspect acceptingEnv (enableAspect acceptingEnv initialAspects alpha).2.1
        alphaTwin).1 = false ∧
      (enableAspect acceptingEnv (enableAspect acceptingEnv initialAspects alpha).2.1
        alphaTwin).2.1.master alphaTwin.addr = some 100 ∧
      StdMap.find
        (enableAspect acceptingEnv (enableAspect acceptingEnv initialAspects alpha).2.1
          alphaTwin).2.1.ext.myMap "Alpha" = some alpha ∧
      StdMap.find
        (disableAspect
          (enableAspect acceptingEnv (enableAspect acceptingEnv initialAspects alpha).2.1
            alphaTwin).2.1 alphaTwin).ext.myMap "Alpha" = none ∧
      (disableAspect
        (enableAspect acceptingEnv (enableAspect acceptingEnv initialAspects alpha).2.1
          alphaTwin).2.1 alphaTwin).master alpha.addr = some 100 := by
  decide

end PropertyComponentInterface

end ORO_ControlKernel
